import Mathlib

/-!
Verification development for the template-assembler repository.

The repository holds two Python scripts, src/assemble_preview.py and
src/build_preview.py.  Each reads three text files (Index.html,
Stylesheet.html, JavaScript.html), replaces the literal placeholder
markers for the stylesheet and the javascript fragment by the fragment
texts using Python str.replace, and writes the result to an output file.
Texts are modelled as List Char; the file system is modelled as a map
from path strings to optional file contents.
-/

namespace Preview

/-- Literal stylesheet marker from the source scripts. -/
def markerA : List Char := "<?!= include(\x27Stylesheet\x27); ?>".toList

/-- Literal javascript marker from the source scripts. -/
def markerB : List Char := "<?!= include(\x27JavaScript\x27); ?>".toList

/-- Model of Python str.replace(p, r) on character lists, for the nonempty
patterns used by the scripts: scan left to right and replace every leftmost
non-overlapping occurrence of p by r in a single pass, never rescanning the
inserted replacement.  (For p = [] this returns the input unchanged; both
markers used by the scripts are nonempty, so that case never arises.) -/
def replaceAll (p r : List Char) : List Char → List Char
  | [] => []
  | c :: s =>
    if p ≠ [] ∧ p <+: (c :: s) then
      r ++ replaceAll p r (List.drop (p.length - 1) s)
    else
      c :: replaceAll p r s
termination_by s => s.length
decreasing_by
  all_goals simp
  all_goals omega

theorem replaceAll_nil (p r : List Char) : replaceAll p r [] = [] := by
  simp [replaceAll]

theorem replaceAll_cons_pos (p r : List Char) (c : Char) (s : List Char)
    (hp : p ≠ []) (h : p <+: (c :: s)) :
    replaceAll p r (c :: s) = r ++ replaceAll p r (List.drop (p.length - 1) s) := by
  simp only [replaceAll]
  rw [if_pos ⟨hp, h⟩]

theorem replaceAll_cons_neg (p r : List Char) (c : Char) (s : List Char)
    (h : ¬ p <+: (c :: s)) :
    replaceAll p r (c :: s) = c :: replaceAll p r s := by
  simp only [replaceAll]
  rw [if_neg]
  intro hand
  exact h hand.2

theorem replaceAll_head_match (p r t : List Char) (hp : p ≠ []) :
    replaceAll p r (p ++ t) = r ++ replaceAll p r t := by
  obtain ⟨c, p', rfl⟩ := List.exists_cons_of_ne_nil hp
  rw [List.cons_append]
  rw [replaceAll_cons_pos _ _ _ _ hp
    (by rw [← List.cons_append]; exact List.prefix_append _ _)]
  have hd : List.drop ((c :: p').length - 1) (p' ++ t) = t := by
    simp [List.drop_left]
  rw [hd]

theorem replaceAll_self (p r : List Char) (hp : p ≠ []) : replaceAll p r p = r := by
  have h := replaceAll_head_match p r [] hp
  simpa [replaceAll_nil] using h

theorem replaceAll_skip (p r : List Char) :
    ∀ u t : List Char, (∀ i, i < u.length → ¬ p <+: (List.drop i u ++ t)) →
      replaceAll p r (u ++ t) = u ++ replaceAll p r t := by
  intro u
  induction u with
  | nil => intro t _; simp
  | cons c u' ih =>
    intro t H
    have hneg : ¬ p <+: (c :: (u' ++ t)) := by
      have h0 := H 0 (by simp)
      simpa using h0
    have hrest : ∀ i, i < u'.length → ¬ p <+: (List.drop i u' ++ t) := by
      intro i hi
      have h1 := H (i + 1) (by simpa using Nat.succ_lt_succ hi)
      simpa using h1
    rw [List.cons_append, replaceAll_cons_neg p r c (u' ++ t) hneg, ih t hrest,
      List.cons_append]

theorem replaceAll_skip_chars (p r u t : List Char) (hp : p ≠ [])
    (H : ∀ ch ∈ u, ch ∉ p) :
    replaceAll p r (u ++ t) = u ++ replaceAll p r t := by
  apply replaceAll_skip
  intro i hi hpre
  obtain ⟨q, p', rfl⟩ := List.exists_cons_of_ne_nil hp
  have hne : List.drop i u ≠ [] := by
    have hl := List.length_drop i u
    intro h0
    rw [h0] at hl
    simp at hl
    omega
  obtain ⟨d, l, hd⟩ := List.exists_cons_of_ne_nil hne
  obtain ⟨t', ht'⟩ := hpre
  rw [hd] at ht'
  simp only [List.cons_append, List.cons.injEq] at ht'
  obtain ⟨hq, -⟩ := ht'
  have hdmem : d ∈ u := List.drop_subset i u (hd ▸ List.mem_cons_self d l)
  exact H d hdmem (hq ▸ List.mem_cons_self q p')

theorem replaceAll_of_no_occurrence (p r : List Char) :
    ∀ s : List Char, ¬ (p <:+: s) → replaceAll p r s = s := by
  intro s
  induction s with
  | nil => intro _; exact replaceAll_nil p r
  | cons c s' ih =>
    intro h
    rw [replaceAll_cons_neg p r c s' (fun hpre => h hpre.isInfix)]
    rw [ih (fun hinf => h (List.infix_cons hinf))]

theorem not_prefix_of_ne_len (p u : List Char) (hlen : p.length = u.length)
    (hne : p ≠ u) (t : List Char) : ¬ p <+: (u ++ t) := by
  intro hpre
  obtain ⟨t', ht'⟩ := hpre
  exact hne (List.append_inj ht' hlen).1

theorem no_inner_match (X Y : List Char) (hY : Y = '<' :: List.drop 1 Y)
    (hX : '<' ∉ List.drop 1 X) :
    ∀ i t, 0 < i → i < X.length → ¬ Y <+: (List.drop i X ++ t) := by
  intro i t hi hlt hpre
  have hne : List.drop i X ≠ [] := by
    have hl := List.length_drop i X
    intro h0
    rw [h0] at hl
    simp at hl
    omega
  obtain ⟨d, l, hd⟩ := List.exists_cons_of_ne_nil hne
  obtain ⟨t', ht'⟩ := hpre
  rw [hY, hd] at ht'
  simp only [List.cons_append, List.cons.injEq] at ht'
  obtain ⟨hq, -⟩ := ht'
  have hmem : d ∈ List.drop 1 X := by
    have h2 : List.drop (i - 1) (List.drop 1 X) = List.drop (1 + (i - 1)) X :=
      List.drop_drop (i - 1) 1 X
    have h3 : 1 + (i - 1) = i := by omega
    rw [h3] at h2
    rw [← h2] at hd
    exact List.drop_subset _ _ (hd ▸ List.mem_cons_self d l)
  exact hX (hq ▸ hmem)

theorem skip_markerA (b t : List Char) :
    replaceAll markerB b (markerA ++ t) = markerA ++ replaceAll markerB b t := by
  apply replaceAll_skip
  intro i hi
  rcases Nat.eq_zero_or_pos i with h0 | hpos
  · subst h0
    simp only [List.drop_zero]
    exact not_prefix_of_ne_len markerB markerA (by decide) (by decide) t
  · exact no_inner_match markerA markerB (by decide) (by decide) i t hpos hi

theorem skip_markerB (a t : List Char) :
    replaceAll markerA a (markerB ++ t) = markerB ++ replaceAll markerA a t := by
  apply replaceAll_skip
  intro i hi
  rcases Nat.eq_zero_or_pos i with h0 | hpos
  · subst h0
    simp only [List.drop_zero]
    exact not_prefix_of_ne_len markerA markerB (by decide) (by decide) t
  · exact no_inner_match markerB markerA (by decide) (by decide) i t hpos hi

theorem no_new_match (P Q a : List Char) (hP : P ≠ []) (ha : a ≠ [])
    (hA : ∀ c ∈ a, c ∉ Q) :
    ∀ t q, q <:+ Q → q <+: replaceAll P a t → q <+: t := by
  intro t
  induction t with
  | nil =>
    intro q _ hq
    rw [replaceAll_nil, List.prefix_nil] at hq
    subst hq
    exact List.nil_prefix
  | cons c t' ih =>
    intro q hsuf hq
    by_cases hpre : P <+: (c :: t')
    · rw [replaceAll_cons_pos P a c t' hP hpre] at hq
      cases q with
      | nil => exact List.nil_prefix
      | cons q0 q' =>
        exfalso
        obtain ⟨a0, a2, rfl⟩ := List.exists_cons_of_ne_nil ha
        obtain ⟨w, hw⟩ := hq
        simp only [List.cons_append, List.cons.injEq] at hw
        obtain ⟨hq0, -⟩ := hw
        have hq0mem : q0 ∈ Q := hsuf.subset (List.mem_cons_self q0 q')
        exact hA a0 (List.mem_cons_self a0 a2) (hq0 ▸ hq0mem)
    · rw [replaceAll_cons_neg P a c t' hpre] at hq
      cases q with
      | nil => exact List.nil_prefix
      | cons q0 q' =>
        rw [List.cons_prefix_cons] at hq
        obtain ⟨rfl, hq'⟩ := hq
        have hq't : q' <+: t' := ih q' ((List.suffix_cons q0 q').trans hsuf) hq'
        exact List.cons_prefix_cons.mpr ⟨rfl, hq't⟩

theorem comm_aux (a b : List Char) (ha : a ≠ []) (hb : b ≠ [])
    (hA : ∀ c ∈ a, c ∉ markerB) (hB : ∀ c ∈ b, c ∉ markerA) :
    ∀ n s, List.length s ≤ n →
      replaceAll markerB b (replaceAll markerA a s)
        = replaceAll markerA a (replaceAll markerB b s) := by
  intro n
  induction n with
  | zero =>
    intro s hs
    have hnil : s = [] := List.eq_nil_of_length_eq_zero (Nat.le_zero.mp hs)
    subst hnil
    simp [replaceAll_nil]
  | succ n ih =>
    intro s hs
    cases s with
    | nil => simp [replaceAll_nil]
    | cons c s' =>
      by_cases h1 : markerA <+: (c :: s')
      · obtain ⟨D, hD⟩ := h1
        rw [← hD]
        rw [replaceAll_head_match markerA a D (by decide)]
        rw [replaceAll_skip_chars markerB b a (replaceAll markerA a D) (by decide) hA]
        rw [skip_markerA b D]
        rw [replaceAll_head_match markerA a (replaceAll markerB b D) (by decide)]
        congr 1
        apply ih
        have hlen := congrArg List.length hD
        have hm : 1 ≤ markerA.length := by decide
        simp only [List.length_append, List.length_cons] at hlen
        simp only [List.length_cons] at hs
        omega
      · by_cases h2 : markerB <+: (c :: s')
        · obtain ⟨D, hD⟩ := h2
          rw [← hD]
          rw [replaceAll_head_match markerB b D (by decide)]
          rw [replaceAll_skip_chars markerA a b (replaceAll markerB b D) (by decide) hB]
          rw [skip_markerB a D]
          rw [replaceAll_head_match markerB b (replaceAll markerA a D) (by decide)]
          congr 1
          apply ih
          have hlen := congrArg List.length hD
          have hm : 1 ≤ markerB.length := by decide
          simp only [List.length_append, List.length_cons] at hlen
          simp only [List.length_cons] at hs
          omega
        · have e1 : replaceAll markerA a (c :: s') = c :: replaceAll markerA a s' :=
            replaceAll_cons_neg markerA a c s' h1
          have e2 : replaceAll markerB b (c :: s') = c :: replaceAll markerB b s' :=
            replaceAll_cons_neg markerB b c s' h2
          rw [e1, e2]
          have hn1 : ¬ markerB <+: (c :: replaceAll markerA a s') := by
            intro hcon
            rw [← e1] at hcon
            exact h2 (no_new_match markerA markerB a (by decide) ha hA
              (c :: s') markerB List.suffix_rfl hcon)
          have hn2 : ¬ markerA <+: (c :: replaceAll markerB b s') := by
            intro hcon
            rw [← e2] at hcon
            exact h1 (no_new_match markerB markerA b (by decide) hb hB
              (c :: s') markerA List.suffix_rfl hcon)
          rw [replaceAll_cons_neg markerB b c (replaceAll markerA a s') hn1]
          rw [replaceAll_cons_neg markerA a c (replaceAll markerB b s') hn2]
          have hs' : s'.length ≤ n := by
            simp only [List.length_cons] at hs
            omega
          rw [ih s' hs']

/-- Hard-coded base directory of both scripts. -/
def baseDir : String := "/Users/nhelvengonzales/.gemini/antigravity/scratch/monday_integration"

/-- Path of the main document (Index.html). -/
def indexPath : String := baseDir ++ "/Index.html"

/-- Path of fragment A (Stylesheet.html). -/
def stylePath : String := baseDir ++ "/Stylesheet.html"

/-- Path of fragment B (JavaScript.html). -/
def jsPath : String := baseDir ++ "/JavaScript.html"

/-- Destination path of assemble_preview.py. -/
def previewPath : String := baseDir ++ "/PreviewIndex.html"

/-- Destination path of build_preview.py. -/
def buildOutPath : String := baseDir ++ "/Preview Folder/preview_v6.html"

/-- Output text computed by assemble_preview.py, lines 23-24: two unconditional
replace calls, stylesheet marker first. -/
def assembleOutput (idx a b : List Char) : List Char :=
  replaceAll markerB b (replaceAll markerA a idx)

/-- Document state after the stylesheet branch of build_preview.py, lines 22-26:
the replace call is guarded by a Python in-containment test. -/
def buildStep1 (idx a : List Char) : List Char :=
  if markerA <:+: idx then replaceAll markerA a idx else idx

/-- Output text computed by build_preview.py, lines 22-33: guarded stylesheet
replacement, then guarded javascript replacement on the already-modified
document (line 29 tests the modified index_content). -/
def buildOutput (idx a b : List Char) : List Char :=
  if markerB <:+: buildStep1 idx a then
    replaceAll markerB b (buildStep1 idx a)
  else
    buildStep1 idx a

/-- Console line of build_preview.py line 23. -/
def foundA : String := "Found Stylesheet include"

/-- Console line of build_preview.py line 26. -/
def warnA : String := "WARNING: Stylesheet include not found exactly"

/-- Console line of build_preview.py line 30. -/
def foundB : String := "Found JavaScript include"

/-- Console line of build_preview.py line 33. -/
def warnB : String := "WARNING: JavaScript include not found exactly"

/-- Console output of assemble_preview.py: a single created line (line 29),
independent of the three input texts; no marker diagnostics are printed. -/
def assembleConsole (_idx _a _b : List Char) : List String :=
  ["Created " ++ previewPath]

/-- Console output of build_preview.py, in print order: stylesheet status
(lines 23/26), javascript status tested on the modified document
(lines 30/33), and the final created line with the output length (line 38). -/
def buildConsole (idx a b : List Char) : List String :=
  [if markerA <:+: idx then foundA else warnA,
   if markerB <:+: buildStep1 idx a then foundB else warnB,
   "Created " ++ buildOutPath ++ " with length " ++ toString (buildOutput idx a b).length]

/-- File system model: a map from path to optional file contents. -/
def FileSys : Type := String → Option (List Char)

/-- Overwrite one file of the file system. -/
def setFile (fs : FileSys) (p : String) (v : List Char) : FileSys :=
  fun q => if q = p then some v else fs q

/-- One run of assemble_preview.py on a file system: read the three inputs in
source order (lines 10-17, a failed read aborts before any write), then write
the assembled text to the preview path (lines 26-27). -/
def runAssemble (fs : FileSys) : Option FileSys :=
  (fs indexPath).bind fun idx =>
    (fs stylePath).bind fun a =>
      (fs jsPath).bind fun b =>
        some (setFile fs previewPath (assembleOutput idx a b))

/-- One run of build_preview.py on a file system: read the three inputs in
source order (lines 10-17), then write the assembled text (lines 35-36). -/
def runBuild (fs : FileSys) : Option FileSys :=
  (fs indexPath).bind fun idx =>
    (fs stylePath).bind fun a =>
      (fs jsPath).bind fun b =>
        some (setFile fs buildOutPath (buildOutput idx a b))

/-- Text written by a run of assemble_preview.py, when the reads succeed. -/
def writtenAssemble (fs : FileSys) : Option (List Char) :=
  (fs indexPath).bind fun idx =>
    (fs stylePath).bind fun a =>
      (fs jsPath).bind fun b =>
        some (assembleOutput idx a b)

/-- Text written by a run of build_preview.py, when the reads succeed. -/
def writtenBuild (fs : FileSys) : Option (List Char) :=
  (fs indexPath).bind fun idx =>
    (fs stylePath).bind fun a =>
      (fs jsPath).bind fun b =>
        some (buildOutput idx a b)

theorem build_unguarded (idx a b : List Char) :
    buildOutput idx a b = replaceAll markerB b (replaceAll markerA a idx) := by
  unfold buildOutput buildStep1
  by_cases hA : markerA <:+: idx
  · rw [if_pos hA]
    by_cases hBq : markerB <:+: replaceAll markerA a idx
    · rw [if_pos hBq]
    · rw [if_neg hBq, replaceAll_of_no_occurrence markerB b (replaceAll markerA a idx) hBq]
  · rw [if_neg hA, replaceAll_of_no_occurrence markerA a idx hA]
    by_cases hBq : markerB <:+: idx
    · rw [if_pos hBq]
    · rw [if_neg hBq, replaceAll_of_no_occurrence markerB b idx hBq]

theorem outputs_agree (idx a b : List Char) :
    buildOutput idx a b = assembleOutput idx a b :=
  build_unguarded idx a b

theorem setFile_ne (fs : FileSys) (p : String) (v : List Char) (q : String)
    (h : q ≠ p) : setFile fs p v q = fs q := by
  unfold setFile
  rw [if_neg h]

theorem setFile_same (fs : FileSys) (p : String) (v : List Char) :
    setFile fs p v p = some v := by
  unfold setFile
  rw [if_pos rfl]

theorem out_swapped_markers_z :
    assembleOutput markerA markerB ['z'] = ['z'] := by
  unfold assembleOutput
  rw [replaceAll_self markerA markerB (by decide)]
  exact replaceAll_self markerB ['z'] (by decide)

theorem out_opposite_order_z :
    replaceAll markerA markerB (replaceAll markerB ['z'] markerA) = markerB := by
  rw [replaceAll_of_no_occurrence markerB ['z'] markerA (by decide)]
  exact replaceAll_self markerA markerB (by decide)

theorem buildStep1_swapped : buildStep1 markerA markerB = markerB := by
  unfold buildStep1
  rw [if_pos List.infix_rfl]
  exact replaceAll_self markerA markerB (by decide)

theorem buildOutput_swapped_z : buildOutput markerA markerB ['z'] = ['z'] := by
  unfold buildOutput
  rw [buildStep1_swapped, if_pos List.infix_rfl]
  exact replaceAll_self markerB ['z'] (by decide)

theorem markerB_no_border :
    ∀ k, k < 30 → 0 < k →
      List.take k markerB ≠ List.drop (30 - k) markerB := by
  decide

theorem replaceAll_split_middle (b : List Char) :
    ∀ n w₁, w₁.length ≤ n → ∀ w₂,
      replaceAll markerB b (w₁ ++ (markerB ++ w₂))
        = replaceAll markerB b w₁ ++ (b ++ replaceAll markerB b w₂) := by
  intro n
  induction n with
  | zero =>
    intro w₁ h w₂
    have hnil : w₁ = [] := List.eq_nil_of_length_eq_zero (Nat.le_zero.mp h)
    subst hnil
    rw [List.nil_append, replaceAll_head_match markerB b w₂ (by decide),
      replaceAll_nil, List.nil_append]
  | succ n ih =>
    intro w₁ hw w₂
    cases w₁ with
    | nil =>
      rw [List.nil_append, replaceAll_head_match markerB b w₂ (by decide),
        replaceAll_nil, List.nil_append]
    | cons c w₁' =>
      by_cases hin : markerB <+: (c :: w₁')
      · obtain ⟨rest, hrest⟩ := hin
        rw [← hrest, List.append_assoc]
        rw [replaceAll_head_match markerB b (rest ++ (markerB ++ w₂)) (by decide)]
        rw [replaceAll_head_match markerB b rest (by decide)]
        have hlen : rest.length ≤ n := by
          have h1 := congrArg List.length hrest
          have hBlen : markerB.length = 30 := by decide
          simp only [List.length_append, List.length_cons] at h1
          simp only [List.length_cons] at hw
          omega
        rw [ih rest hlen w₂, List.append_assoc]
      · by_cases hfull : markerB <+: (c :: (w₁' ++ (markerB ++ w₂)))
        · exfalso
          have hBlen : markerB.length = 30 := by decide
          rw [← List.cons_append] at hfull
          have htake : markerB = List.take 30 ((c :: w₁') ++ (markerB ++ w₂)) := by
            have h1 := List.prefix_iff_eq_take.mp hfull
            rwa [hBlen] at h1
          rcases Nat.lt_or_ge (c :: w₁').length 30 with hm | hm
          · have e : List.take 30 ((c :: w₁') ++ (markerB ++ w₂))
                = (c :: w₁') ++ List.take (30 - (c :: w₁').length) markerB := by
              rw [List.take_append_eq_append_take]
              congr 1
              · exact List.take_of_length_le (Nat.le_of_lt hm)
              · rw [List.take_append_eq_append_take]
                have hz : 30 - (c :: w₁').length - markerB.length = 0 := by
                  rw [hBlen]
                  omega
                rw [hz, List.take_zero, List.append_nil]
            have h1 : markerB
                = (c :: w₁') ++ List.take (30 - (c :: w₁').length) markerB :=
              htake.trans e
            have h3 : List.drop (c :: w₁').length markerB
                = List.take (30 - (c :: w₁').length) markerB := by
              conv_lhs => rw [h1]
              rw [List.drop_left]
            have hmpos : 0 < (c :: w₁').length := by
              simp only [List.length_cons]
              omega
            have hb := markerB_no_border (30 - (c :: w₁').length)
              (by omega) (by omega)
            have hmm : 30 - (30 - (c :: w₁').length) = (c :: w₁').length := by
              omega
            rw [hmm] at hb
            exact hb h3.symm
          · have h4 : List.take 30 ((c :: w₁') ++ (markerB ++ w₂))
                = List.take 30 (c :: w₁') := by
              rw [List.take_append_eq_append_take]
              have hz : 30 - (c :: w₁').length = 0 := by omega
              rw [hz, List.take_zero, List.append_nil]
            exact hin (by rw [List.prefix_iff_eq_take, hBlen, ← h4]; exact htake)
        · rw [List.cons_append,
            replaceAll_cons_neg markerB b c (w₁' ++ (markerB ++ w₂)) hfull,
            replaceAll_cons_neg markerB b c w₁' hin]
          have hw' : w₁'.length ≤ n := by
            simp only [List.length_cons] at hw
            omega
          rw [ih w₁' hw' w₂, List.cons_append]

theorem replaceAll_split (b w₁ w₂ : List Char) :
    replaceAll markerB b (w₁ ++ (markerB ++ w₂))
      = replaceAll markerB b w₁ ++ (b ++ replaceAll markerB b w₂) :=
  replaceAll_split_middle b w₁.length w₁ le_rfl w₂

theorem replaceAll_inserts (p r : List Char) (hp : p ≠ []) :
    ∀ s : List Char, p <:+: s → ∃ w₁ w₂, replaceAll p r s = w₁ ++ r ++ w₂ := by
  intro s
  induction s with
  | nil =>
    intro h
    exact absurd (List.infix_nil.mp h) hp
  | cons c s' ih =>
    intro h
    by_cases hpre : p <+: (c :: s')
    · refine ⟨[], replaceAll p r (List.drop (p.length - 1) s'), ?_⟩
      rw [replaceAll_cons_pos p r c s' hp hpre, List.nil_append]
    · rcases List.infix_cons_iff.mp h with hc | hc
      · exact absurd hc hpre
      · obtain ⟨w₁, w₂, hw⟩ := ih hc
        refine ⟨c :: w₁, w₂, ?_⟩
        rw [replaceAll_cons_neg p r c s' hpre, hw]
        rfl

/-- C1: for every main-document text, fragment-A text and fragment-B text, the
text written by either script equals the main document with every occurrence of
the stylesheet marker replaced by the full fragment-A text and then, on that
already-modified document, every occurrence of the javascript marker replaced
by the full fragment-B text (substitute-all, A before B).  replaceAll is the
substitute-all single-pass semantics of Python str.replace. -/
theorem c1_output_is_double_substitution (idx a b : List Char) :
    assembleOutput idx a b = replaceAll markerB b (replaceAll markerA a idx)
      ∧ buildOutput idx a b = replaceAll markerB b (replaceAll markerA a idx) :=
  ⟨rfl, build_unguarded idx a b⟩

/-- C2 (refuted as stated): the two replacement operations do not commute in
general.  Concrete input: main document equal to the stylesheet marker,
fragment A equal to the javascript marker, fragment B the text z.  A-then-B
yields z while B-then-A yields the javascript marker. -/
theorem c2_counterexample :
    assembleOutput markerA markerB ['z']
      ≠ replaceAll markerA markerB (replaceAll markerB ['z'] markerA) := by
  rw [out_swapped_markers_z, out_opposite_order_z]
  decide

/-- C2 (amended): the stylesheet and javascript substitutions commute provided
both fragments are nonempty, no character of fragment A occurs in the
javascript marker, and no character of fragment B occurs in the stylesheet
marker; without such a restriction the two orders can differ, since the first
substitution may introduce or complete an occurrence of the other marker. -/
theorem c2_amended_comm (idx a b : List Char) (ha : a ≠ []) (hb : b ≠ [])
    (hA : ∀ c ∈ a, c ∉ markerB) (hB : ∀ c ∈ b, c ∉ markerA) :
    assembleOutput idx a b = replaceAll markerA a (replaceAll markerB b idx) :=
  comm_aux a b ha hb hA hB idx.length idx le_rfl

/-- C2 witness: the amended commutation law at a concrete input. -/
theorem c2_amended_comm_witness :
    ("xyz".toList ≠ [] ∧ "q".toList ≠ []
        ∧ (∀ c ∈ "xyz".toList, c ∉ markerB) ∧ (∀ c ∈ "q".toList, c ∉ markerA))
      ∧ assembleOutput (markerA ++ markerB) "xyz".toList "q".toList
          = replaceAll markerA "xyz".toList
              (replaceAll markerB "q".toList (markerA ++ markerB)) :=
  ⟨⟨by decide, by decide, by decide, by decide⟩,
    c2_amended_comm (markerA ++ markerB) "xyz".toList "q".toList
      (by decide) (by decide) (by decide) (by decide)⟩

/-- C6: substitution is a single pass per marker over the main document using
the original fragment text: after an occurrence is replaced, scanning resumes
after the inserted fragment, so marker text inside the fragment (for any
fragment, including one containing the marker literal) lands in the output
verbatim and is never re-expanded; in particular replacing the stylesheet
marker by itself is the identity rather than a divergent recursion. -/
theorem c6_single_pass_no_recursion (a b t : List Char) :
    replaceAll markerA a (markerA ++ t) = a ++ replaceAll markerA a t
      ∧ replaceAll markerB b (markerB ++ t) = b ++ replaceAll markerB b t
      ∧ replaceAll markerA markerA markerA = markerA :=
  ⟨replaceAll_head_match markerA a t (by decide),
    replaceAll_head_match markerB b t (by decide),
    replaceAll_self markerA markerA (by decide)⟩

/-- C9: the two scripts compute the same output text from identical input
texts; their substitution pipelines are extensionally equal. -/
theorem c9_scripts_agree (idx a b : List Char) :
    buildOutput idx a b = assembleOutput idx a b :=
  outputs_agree idx a b

/-- C10: for every main document, every fragment A containing an occurrence of
the javascript marker (written u ++ (markerB ++ v) for arbitrary u, v), and
every fragment B, each occurrence of the javascript marker in the document
produced by the first substitution (every decomposition w₁ ++ (markerB ++ w₂)
of it) is consumed by the second pass: both scripts put fragment B at exactly
that position, not the marker literal.  Moreover, whenever the main document
contains the stylesheet marker at all, the first substitution does introduce a
javascript-marker occurrence for the second pass to consume.  (Occurrences of
the javascript marker never overlap, since it has no nontrivial border, so
every one of them is replaced.) -/
theorem c10_introduced_marker_consumed (idx u v b : List Char) :
    (∀ w₁ w₂,
        replaceAll markerA (u ++ (markerB ++ v)) idx = w₁ ++ (markerB ++ w₂) →
          assembleOutput idx (u ++ (markerB ++ v)) b
              = replaceAll markerB b w₁ ++ (b ++ replaceAll markerB b w₂)
            ∧ buildOutput idx (u ++ (markerB ++ v)) b
              = replaceAll markerB b w₁ ++ (b ++ replaceAll markerB b w₂))
      ∧ (markerA <:+: idx →
          markerB <:+: replaceAll markerA (u ++ (markerB ++ v)) idx) := by
  constructor
  · intro w₁ w₂ hocc
    have hmain : assembleOutput idx (u ++ (markerB ++ v)) b
        = replaceAll markerB b w₁ ++ (b ++ replaceAll markerB b w₂) := by
      unfold assembleOutput
      rw [hocc]
      exact replaceAll_split b w₁ w₂
    exact ⟨hmain, by rw [outputs_agree]; exact hmain⟩
  · intro hA
    obtain ⟨w₁, w₂, hw⟩ :=
      replaceAll_inserts markerA (u ++ (markerB ++ v)) (by decide) idx hA
    rw [hw]
    exact ⟨w₁ ++ u, v ++ w₂, by simp [List.append_assoc]⟩

/-- C10 witness: the consumed-marker law at a concrete input whose main
document is the stylesheet marker and whose fragment A is x markerB y. -/
theorem c10_introduced_marker_consumed_witness :
    (replaceAll markerA (['x'] ++ (markerB ++ ['y'])) markerA
        = ['x'] ++ (markerB ++ ['y']))
      ∧ (markerA <:+: markerA)
      ∧ (assembleOutput markerA (['x'] ++ (markerB ++ ['y'])) ['z']
            = replaceAll markerB ['z'] ['x'] ++ (['z'] ++ replaceAll markerB ['z'] ['y'])
          ∧ buildOutput markerA (['x'] ++ (markerB ++ ['y'])) ['z']
            = replaceAll markerB ['z'] ['x'] ++ (['z'] ++ replaceAll markerB ['z'] ['y']))
      ∧ markerB <:+: replaceAll markerA (['x'] ++ (markerB ++ ['y'])) markerA :=
  ⟨replaceAll_self markerA (['x'] ++ (markerB ++ ['y'])) (by decide),
    List.infix_rfl,
    (c10_introduced_marker_consumed markerA ['x'] ['y'] ['z']).1 ['x'] ['y']
      (replaceAll_self markerA (['x'] ++ (markerB ++ ['y'])) (by decide)),
    (c10_introduced_marker_consumed markerA ['x'] ['y'] ['z']).2 List.infix_rfl⟩

/-- C3 (refuted as stated): a marker absent from the main document need not
produce a warning.  Concrete input: main document equal to the stylesheet
marker, fragment A equal to the javascript marker.  The javascript marker does
not occur in the main document, yet build_preview.py tests it against the
already-substituted document and prints the found line, not the warning. -/
theorem c3_counterexample :
    ¬ markerB <:+: markerA
      ∧ warnB ∉ buildConsole markerA markerB ['z'] := by
  refine ⟨by decide, ?_⟩
  unfold buildConsole
  rw [buildStep1_swapped, buildOutput_swapped_z]
  rw [if_pos (List.infix_rfl : markerA <:+: markerA)]
  rw [if_pos (List.infix_rfl : markerB <:+: markerB)]
  decide

/-- C3 (amended): the assembler never fails on a missing marker and always
writes the output; build_preview.py prints one status line per marker, testing
the stylesheet marker against the main document but the javascript marker
against the already-substituted document, and warns exactly when that test
fails; assemble_preview.py prints no marker diagnostics at all, only its
created line. -/
theorem c3_amended_diagnostics (idx a b : List Char) :
    ((¬ markerA <:+: idx) → warnA ∈ buildConsole idx a b)
      ∧ ((markerA <:+: idx) → foundA ∈ buildConsole idx a b)
      ∧ ((¬ markerB <:+: buildStep1 idx a) → warnB ∈ buildConsole idx a b)
      ∧ ((markerB <:+: buildStep1 idx a) → foundB ∈ buildConsole idx a b)
      ∧ (buildConsole idx a b).length = 3
      ∧ assembleConsole idx a b = ["Created " ++ previewPath]
      ∧ (∀ fs : FileSys, fs indexPath = some idx → fs stylePath = some a →
          fs jsPath = some b →
          runBuild fs = some (setFile fs buildOutPath (buildOutput idx a b))
            ∧ runAssemble fs
                = some (setFile fs previewPath (assembleOutput idx a b))) := by
  refine ⟨?_, ?_, ?_, ?_, rfl, rfl, ?_⟩
  · intro h
    unfold buildConsole
    rw [if_neg h]
    exact List.mem_cons_self _ _
  · intro h
    unfold buildConsole
    rw [if_pos h]
    exact List.mem_cons_self _ _
  · intro h
    unfold buildConsole
    rw [if_neg h]
    exact List.mem_cons_of_mem _ (List.mem_cons_self _ _)
  · intro h
    unfold buildConsole
    rw [if_pos h]
    exact List.mem_cons_of_mem _ (List.mem_cons_self _ _)
  · intro fs h1 h2 h3
    unfold runBuild runAssemble
    rw [h1, h2, h3]
    exact ⟨rfl, rfl⟩

/-- C3 witness: the amended diagnostics law at a concrete input where both
markers are missing from the (empty) main document. -/
theorem c3_amended_diagnostics_witness :
    (¬ markerA <:+: ([] : List Char))
      ∧ (¬ markerB <:+: buildStep1 [] [])
      ∧ warnA ∈ buildConsole [] [] []
      ∧ warnB ∈ buildConsole [] [] [] :=
  ⟨by decide, by decide,
    (c3_amended_diagnostics [] [] []).1 (by decide),
    (c3_amended_diagnostics [] [] []).2.2.1 (by decide)⟩

/-- File system with only the main document present, used as a concrete
failed-read scenario. -/
def lostFS : FileSys :=
  fun q => if q = indexPath then some [] else none

/-- C4: if any of the three input files is missing, both scripts abort before
any output is written: the run of either script produces no file-system
change. -/
theorem c4_read_failure_aborts (fs : FileSys)
    (h : fs indexPath = none ∨ fs stylePath = none ∨ fs jsPath = none) :
    runAssemble fs = none ∧ runBuild fs = none := by
  unfold runAssemble runBuild
  rcases h with h | h | h
  · simp [h]
  · cases hidx : fs indexPath <;> simp [h]
  · cases hidx : fs indexPath <;> cases hsty : fs stylePath <;> simp [h]

/-- C4 witness: the abort law at a concrete file system missing the
stylesheet fragment. -/
theorem c4_read_failure_aborts_witness :
    (lostFS indexPath = none ∨ lostFS stylePath = none ∨ lostFS jsPath = none)
      ∧ (runAssemble lostFS = none ∧ runBuild lostFS = none) :=
  ⟨Or.inr (Or.inl (by decide)),
    c4_read_failure_aborts lostFS (Or.inr (Or.inl (by decide)))⟩

/-- File system with all three inputs present, used as a concrete
successful-run scenario. -/
def okFS : FileSys :=
  fun q =>
    if q = indexPath then some markerA
    else if q = stylePath then some ['s']
    else if q = jsPath then some ['j']
    else none

/-- C5: the assembler is deterministic and idempotent across runs: the written
text depends only on the three input texts (two file systems agreeing on the
three input paths yield identical written bytes, whatever either destination
previously held), and re-running on the post-run file system reproduces
byte-identical output, because each destination path differs from all three
input paths. -/
theorem c5_deterministic_idempotent (fs1 fs2 : FileSys)
    (h1 : fs1 indexPath = fs2 indexPath) (h2 : fs1 stylePath = fs2 stylePath)
    (h3 : fs1 jsPath = fs2 jsPath) :
    writtenAssemble fs1 = writtenAssemble fs2
      ∧ writtenBuild fs1 = writtenBuild fs2
      ∧ (∀ g, runAssemble fs1 = some g → writtenAssemble g = writtenAssemble fs1)
      ∧ (∀ g, runBuild fs1 = some g → writtenBuild g = writtenBuild fs1) := by
  refine ⟨?_, ?_, ?_, ?_⟩
  · unfold writtenAssemble
    rw [h1, h2, h3]
  · unfold writtenBuild
    rw [h1, h2, h3]
  · intro g hg
    unfold runAssemble at hg
    cases hidx : fs1 indexPath with
    | none => rw [hidx] at hg; simp at hg
    | some idx =>
      rw [hidx] at hg
      cases hsty : fs1 stylePath with
      | none => rw [hsty] at hg; simp at hg
      | some a =>
        rw [hsty] at hg
        cases hjs : fs1 jsPath with
        | none => rw [hjs] at hg; simp at hg
        | some b =>
          rw [hjs] at hg
          simp only [Option.some_bind, Option.some.injEq] at hg
          subst hg
          unfold writtenAssemble
          rw [setFile_ne fs1 previewPath (assembleOutput idx a b) indexPath (by decide)]
          rw [setFile_ne fs1 previewPath (assembleOutput idx a b) stylePath (by decide)]
          rw [setFile_ne fs1 previewPath (assembleOutput idx a b) jsPath (by decide)]
  · intro g hg
    unfold runBuild at hg
    cases hidx : fs1 indexPath with
    | none => rw [hidx] at hg; simp at hg
    | some idx =>
      rw [hidx] at hg
      cases hsty : fs1 stylePath with
      | none => rw [hsty] at hg; simp at hg
      | some a =>
        rw [hsty] at hg
        cases hjs : fs1 jsPath with
        | none => rw [hjs] at hg; simp at hg
        | some b =>
          rw [hjs] at hg
          simp only [Option.some_bind, Option.some.injEq] at hg
          subst hg
          unfold writtenBuild
          rw [setFile_ne fs1 buildOutPath (buildOutput idx a b) indexPath (by decide)]
          rw [setFile_ne fs1 buildOutPath (buildOutput idx a b) stylePath (by decide)]
          rw [setFile_ne fs1 buildOutPath (buildOutput idx a b) jsPath (by decide)]

/-- C5 witness: two concrete file systems differing only at the destination
path produce identical written text. -/
theorem c5_deterministic_idempotent_witness :
    (okFS indexPath = setFile okFS previewPath ['w'] indexPath
        ∧ okFS stylePath = setFile okFS previewPath ['w'] stylePath
        ∧ okFS jsPath = setFile okFS previewPath ['w'] jsPath)
      ∧ writtenAssemble okFS = writtenAssemble (setFile okFS previewPath ['w']) :=
  ⟨⟨by decide, by decide, by decide⟩,
    (c5_deterministic_idempotent okFS (setFile okFS previewPath ['w'])
      (by decide) (by decide) (by decide)).1⟩

/-- C7 (refuted as stated): with the javascript marker absent from the main
document the output can still differ from the stylesheet-only substitution.
Concrete input: main document equal to the stylesheet marker, fragment A equal
to the javascript marker, fragment B the text z: both scripts output z, while
substituting only the stylesheet marker yields the javascript marker. -/
theorem c7_counterexample :
    ¬ markerB <:+: markerA
      ∧ assembleOutput markerA markerB ['z'] ≠ replaceAll markerA markerB markerA
      ∧ buildOutput markerA markerB ['z'] ≠ replaceAll markerA markerB markerA := by
  have hswap : replaceAll markerA markerB markerA = markerB :=
    replaceAll_self markerA markerB (by decide)
  refine ⟨by decide, ?_, ?_⟩
  · rw [out_swapped_markers_z, hswap]
    decide
  · rw [buildOutput_swapped_z, hswap]
    decide

/-- C7 (amended): if the stylesheet marker is absent from the main document,
the output equals the main document with only the javascript marker
substituted; if the javascript marker is absent from the document after the
stylesheet substitution, the output equals the main document with only the
stylesheet marker substituted; an empty main document yields empty output,
build_preview.py reports both markers not found (assemble_preview.py prints no
marker status), no error is raised and the (empty) output file is still
written. -/
theorem c7_amended_missing_marker (idx a b : List Char) :
    ((¬ markerA <:+: idx) →
        assembleOutput idx a b = replaceAll markerB b idx
          ∧ buildOutput idx a b = replaceAll markerB b idx)
      ∧ ((¬ markerB <:+: replaceAll markerA a idx) →
          assembleOutput idx a b = replaceAll markerA a idx
            ∧ buildOutput idx a b = replaceAll markerA a idx)
      ∧ (assembleOutput [] a b = []
          ∧ buildOutput [] a b = []
          ∧ warnA ∈ buildConsole [] a b
          ∧ warnB ∈ buildConsole [] a b
          ∧ ∀ fs : FileSys, fs indexPath = some [] → fs stylePath = some a →
              fs jsPath = some b →
              runAssemble fs = some (setFile fs previewPath (assembleOutput [] a b))
                ∧ setFile fs previewPath (assembleOutput [] a b) previewPath = some []
                ∧ runBuild fs = some (setFile fs buildOutPath (buildOutput [] a b))
                ∧ setFile fs buildOutPath (buildOutput [] a b) buildOutPath = some []) := by
  have hempty : assembleOutput ([] : List Char) a b = [] := by
    unfold assembleOutput
    rw [replaceAll_nil, replaceAll_nil]
  have hemptyB : buildOutput ([] : List Char) a b = [] := by
    rw [outputs_agree]
    exact hempty
  refine ⟨?_, ?_, hempty, hemptyB, ?_, ?_, ?_⟩
  · intro h
    have hstep : replaceAll markerA a idx = idx :=
      replaceAll_of_no_occurrence markerA a idx h
    constructor
    · unfold assembleOutput
      rw [hstep]
    · rw [build_unguarded, hstep]
  · intro h
    have hstep : replaceAll markerB b (replaceAll markerA a idx)
        = replaceAll markerA a idx := replaceAll_of_no_occurrence markerB b _ h
    exact ⟨hstep, by rw [build_unguarded]; exact hstep⟩
  · unfold buildConsole
    rw [if_neg (by decide : ¬ markerA <:+: ([] : List Char))]
    exact List.mem_cons_self _ _
  · have hstep : buildStep1 ([] : List Char) a = [] := by
      unfold buildStep1
      rw [if_neg (by decide : ¬ markerA <:+: ([] : List Char))]
    unfold buildConsole
    rw [hstep, if_neg (by decide : ¬ markerB <:+: ([] : List Char))]
    exact List.mem_cons_of_mem _ (List.mem_cons_self _ _)
  · intro fs h1 h2 h3
    unfold runAssemble runBuild
    rw [h1, h2, h3]
    simp only [Option.some_bind]
    refine ⟨trivial, ?_, trivial, ?_⟩
    · rw [setFile_same, hempty]
    · rw [setFile_same, hemptyB]

/-- File system holding an empty main document plus both fragments. -/
def emptyFS : FileSys :=
  fun q =>
    if q = indexPath then some []
    else if q = stylePath then some ['s']
    else if q = jsPath then some ['j']
    else none

/-- C7 witness: the amended missing-marker law at concrete inputs, both for a
main document without the stylesheet marker and for the empty main document. -/
theorem c7_amended_missing_marker_witness :
    (¬ markerA <:+: markerB)
      ∧ (assembleOutput markerB ['s'] ['j'] = replaceAll markerB ['j'] markerB
          ∧ buildOutput markerB ['s'] ['j'] = replaceAll markerB ['j'] markerB)
      ∧ (emptyFS indexPath = some [] ∧ emptyFS stylePath = some ['s']
          ∧ emptyFS jsPath = some ['j'])
      ∧ (runAssemble emptyFS
            = some (setFile emptyFS previewPath (assembleOutput [] ['s'] ['j']))
          ∧ setFile emptyFS previewPath (assembleOutput [] ['s'] ['j']) previewPath
              = some []
          ∧ runBuild emptyFS
              = some (setFile emptyFS buildOutPath (buildOutput [] ['s'] ['j']))
          ∧ setFile emptyFS buildOutPath (buildOutput [] ['s'] ['j']) buildOutPath
              = some []) :=
  ⟨by decide,
    (c7_amended_missing_marker markerB ['s'] ['j']).1 (by decide),
    ⟨by decide, by decide, by decide⟩,
    (c7_amended_missing_marker [] ['s'] ['j']).2.2.2.2.2.2 emptyFS
      (by decide) (by decide) (by decide)⟩

/-- C8: on every successful run each script reports success with a log line
containing its destination path; build_preview.py additionally reports the
character length of the output.  The final console line is stated exactly and
the destination path is shown to occur inside it. -/
theorem c8_success_report (idx a b : List Char) :
    (assembleConsole idx a b).getLast? = some ("Created " ++ previewPath)
      ∧ (buildConsole idx a b).getLast?
          = some ("Created " ++ buildOutPath ++ " with length "
              ++ toString (buildOutput idx a b).length)
      ∧ previewPath.toList <:+: ("Created " ++ previewPath).toList
      ∧ buildOutPath.toList
          <:+: ("Created " ++ buildOutPath ++ " with length "
              ++ toString (buildOutput idx a b).length).toList := by
  refine ⟨rfl, rfl, ?_, ?_⟩
  · exact ⟨"Created ".toList, [], by simp [String.toList]⟩
  · exact ⟨"Created ".toList,
      (" with length " ++ toString (buildOutput idx a b).length).toList,
      by simp [String.toList]⟩

end Preview
